import Mathlib

/-!
Verification development for the fault discretization core of the `beat`
repository (`src/ffo/fault.py`).

The Python source is shallowly embedded below.  Machine integers that matter
are modelled explicitly: numpy's `astype('int16')` is the function
`astype_int16` (wrap into `[-32768, 32767]` modulo `2^16`), and numpy's
`round` (half-to-even) is `np_round`.  Continuous quantities (`float` in the
source) are modelled as rationals.  Python exceptions are modelled by the
`BeatError` inductive; functions that can raise return `Except BeatError _`
or a `_ × Option BeatError` pair when the mutated state on error matters.

Two pieces of repository code are referenced by `fault.py` but are not under
`src/`: `beat.fast_sweeping.fast_sweep.get_rupture_times_numpy` and the
`extent_source` / `get_n_patches` methods of beat's `RectangularSource`.
Those are modelled from the specification; their doc comments start with
`Modelled from the spec:` and say exactly what is missing.
-/

/- Batteries marks the rational-number field operations `@[irreducible]`,
which blocks `decide`/`rfl` evaluation of the concrete rational arithmetic
in the witnesses below; restore the kernel-visible reducibility locally. -/
attribute [local semireducible] Rat.mul Rat.inv Rat.add Rat.sub

/-- numpy `astype('int16')` applied to an integer value: wrap modulo `2 ^ 16`
into the signed range `[-32768, 32767]`. -/
def astype_int16 (x : ℤ) : ℤ :=
  (x + 32768) % 65536 - 32768

/-- numpy `round` (round half to even) on a rational, yielding an integer. -/
def np_round (q : ℚ) : ℤ :=
  if 2 * Int.fract q = 1 then
    (if ⌊q⌋ % 2 = 0 then ⌊q⌋ else ⌊q⌋ + 1)
  else round q

/-- Helper for `str`: produce the decimal digit characters of `n`
(most-significant first), prepended to `acc`.  The first argument is fuel,
which makes the definition structurally recursive and kernel-reducible. -/
def strAux : ℕ → ℕ → List Char → List Char
  | 0, _, acc => acc
  | _ + 1, 0, acc => acc
  | fuel + 1, n + 1, acc =>
      strAux fuel ((n + 1) / 10) (Nat.digitChar ((n + 1) % 10) :: acc)

/-- Python `str` applied to a non-negative integer: its decimal notation. -/
def str (n : ℕ) : String :=
  if n = 0 then "0" else String.mk (strAux n n [])

/-- Exceptions raised by the embedded code.  Each constructor corresponds to
one `raise` site in `fault.py`, except the two solver errors, which are
modelled from the spec (see `get_rupture_times_numpy`). -/
inductive BeatError
  /-- Python `TypeError` from `FaultGeometry._check_datatype`. -/
  | typeErrorDatatype
  /-- Python `TypeError` from `FaultGeometry._check_component`. -/
  | typeErrorComponent
  /-- Python `TypeError` from `FaultGeometry._check_index`. -/
  | typeErrorIndex
  /-- Python `IndexError` from list indexing. -/
  | indexError
  /-- Python `FaultGeometryError('Setup does not match fault ordering!')`. -/
  | faultGeometryMismatch
  /-- Python `FaultGeometryError('Subfault already specified in geometry!')`. -/
  | faultGeometryDuplicate
  /-- Python `ValueError`: seismic mode supports square patches only. -/
  | valueErrorNonSquare
  /-- Python `ValueError`: seismic mode supports one main fault only. -/
  | valueErrorMultiSource
  /-- Python `KeyError` from `slip_directions[var]`. -/
  | keyErrorSlipDirections
  /-- numpy `ValueError` from `reshape` on a size mismatch. -/
  | valueErrorReshape
  /-- Spec §4.6 failure mode `InvalidSlowness` of the rupture-time solver. -/
  | invalidSlowness
  /-- Spec §4.6 failure mode `InvalidNucleation` of the rupture-time solver. -/
  | invalidNucleation
deriving DecidableEq

/-- Model of `PatchMap = namedtuple('PatchMap', 'count, slc, shp, npatches, indexmap')`.
`slc` is the half-open slice `slice(dim, dim + npatches)` as a start/stop
pair, `shp` is `(npw, npl)` (dip count, strike count), and `indexmap` is the
`numpy.arange(npatches, dtype='int16').reshape(shp)` table viewed as the
function sending `(dipidx, strikeidx)` to its entry. -/
structure PatchMap where
  count : ℕ
  slc : ℕ × ℕ
  shp : ℕ × ℕ
  npatches : ℕ
  indexmap : ℕ → ℕ → ℤ

instance : Inhabited PatchMap :=
  ⟨⟨0, (0, 0), (0, 0), 0, fun _ _ => 0⟩⟩

/-- The loop body of `FaultOrdering.__init__`: walk the zipped
`(npl, npw)` pairs carrying the running flat offset `dim` and the subfault
counter `count`; return the built `vmap` list together with the final `dim`
(which becomes `FaultOrdering.npatches`).  The entry of the reshaped
`arange(npatches, dtype='int16')` table at `(d, s)` is the int16 cast of the
row-major position `d * npl + s`. -/
def buildVmap : List (ℕ × ℕ) → ℕ → ℕ → List PatchMap × ℕ
  | [], dim, _ => ([], dim)
  | (npl, npw) :: rest, dim, count =>
      let res := buildVmap rest (dim + npl * npw) (count + 1)
      (PatchMap.mk count (dim, dim + npl * npw) (npw, npl) (npl * npw)
          (fun d s => astype_int16 ((d * npl + s : ℕ))) :: res.1,
       res.2)

/-- Model of `FaultOrdering`: per-subfault patch bookkeeping.  (The Theano `smap`
shared variables mirror `vmap`'s index tables and are not modelled.) -/
structure FaultOrdering where
  patch_size_strike : ℚ
  patch_size_dip : ℚ
  vmap : List PatchMap
  npatches : ℕ

/-- Model of `FaultOrdering.__init__(npls, npws, patch_size_strike, patch_size_dip)`. -/
def FaultOrdering.init (npls npws : List ℕ)
    (patch_size_strike patch_size_dip : ℚ) : FaultOrdering :=
  { patch_size_strike := patch_size_strike
    patch_size_dip := patch_size_dip
    vmap := (buildVmap (npls.zip npws) 0 0).1
    npatches := (buildVmap (npls.zip npws) 0 0).2 }

/-- One input source plane.  Only the attributes read by `fault.py` are
modelled: `rake`, `length`, `width` (metres), and the slip attributes set by
`source.update(**param_mod)`. -/
structure RectangularSource where
  rake : ℚ
  length : ℚ
  width : ℚ
  slip : ℚ
  opening : ℚ
deriving DecidableEq

/-- One entry of the `slip_directions` dict: the keyword arguments passed to
`source.update`.  `uparr`/`uperp` carry no `opening` key, so that attribute
is optional. -/
structure ParamMod where
  slip : ℚ
  rake : ℚ
  opening : Option ℚ
deriving DecidableEq

/-- The module-level `slip_directions` dict; `none` models a `KeyError`. -/
def slip_directions (var : String) : Option ParamMod :=
  if var = "uparr" then some ⟨1, 0, none⟩
  else if var = "uperp" then some ⟨1, -90, none⟩
  else if var = "utensile" then some ⟨0, 0, some 1⟩
  else none

/-- Model of `source.update(**param_mod)`: set the attributes named by the dict. -/
def RectangularSource.update (s : RectangularSource) (pm : ParamMod) :
    RectangularSource :=
  { s with slip := pm.slip, rake := pm.rake,
           opening := pm.opening.getD s.opening }

/-- Modelled from the spec: `RectangularSource.extent_source` lives in beat's
sources module, which is not under `src/`.  Per spec §4.5 step 1 it pads the
plane symmetrically by the extension fractions and rounds the dimensions up
so that patches tile evenly without a partial remainder patch; all other
attributes (in particular `rake`) are unchanged. -/
def RectangularSource.extent_source (s : RectangularSource)
    (extension_width extension_length : ℚ)
    (patch_width_m patch_length_m : ℚ) : RectangularSource :=
  { s with
    length := patch_length_m *
      (⌈s.length * (1 + 2 * extension_length) / patch_length_m⌉ : ℤ)
    width := patch_width_m *
      (⌈s.width * (1 + 2 * extension_width) / patch_width_m⌉ : ℤ) }

/-- Lookup in the model of the Python dict `FaultGeometry._ext_sources`
(an association list preserving insertion order). -/
def storeLookup : List (String × RectangularSource) → String →
    Option RectangularSource
  | [], _ => none
  | (k, v) :: rest, key => if key = k then some v else storeLookup rest key

/-- Python dict assignment `store[k] = v`: overwrite in place when the key is
present, append otherwise. -/
def storeSet : List (String × RectangularSource) → String →
    RectangularSource → List (String × RectangularSource)
  | [], k, v => [(k, v)]
  | (k', v') :: rest, k, v =>
      if k = k' then (k, v) :: rest else (k', v') :: storeSet rest k v

/-- Model of `FaultGeometry`: stores the extended sources keyed by the string
`datatype + '_' + component + '_' + str(index)`. -/
structure FaultGeometry where
  datatypes : List String
  components : List String
  _ext_sources : List (String × RectangularSource)
  ordering : FaultOrdering

/-- Model of `FaultGeometry.nsubfaults = len(self.ordering.vmap)`. -/
def FaultGeometry.nsubfaults (fg : FaultGeometry) : ℕ :=
  fg.ordering.vmap.length

/-- The key string built by `FaultGeometry.get_subfault_key`. -/
def subfault_key (datatype component : String) (index : ℕ) : String :=
  datatype ++ "_" ++ component ++ "_" ++ str index

/-- Model of `FaultGeometry._check_index`: raises only when `index > nsubfaults - 1`;
negative indices pass. -/
def FaultGeometry._check_index (fg : FaultGeometry) (index : ℤ) :
    Option BeatError :=
  if index > (fg.nsubfaults : ℤ) - 1 then some .typeErrorIndex else none

/-- Python list indexing `l[index]` with negative-index semantics:
a negative index counts from the end; out of range raises `IndexError`. -/
def pythonGet (l : List PatchMap) (index : ℤ) : Except BeatError PatchMap :=
  let j : ℤ := if index < 0 then index + l.length else index
  if 0 ≤ j then
    match l.get? j.toNat with
    | some pm => .ok pm
    | none => .error .indexError
  else .error .indexError

/-- Model of `FaultGeometry.get_patch_indexes(index)`:
`_check_index` then `self.ordering.vmap[index].slc`. -/
def FaultGeometry.get_patch_indexes (fg : FaultGeometry) (index : ℤ) :
    Except BeatError (ℕ × ℕ) :=
  match fg._check_index index with
  | some e => .error e
  | none => (pythonGet fg.ordering.vmap index).map PatchMap.slc

/-- Model of `FaultGeometry.get_subfault_discretization(index)`:
`_check_index` then `self.ordering.vmap[index].shp`, i.e. `(npw, npl)`. -/
def FaultGeometry.get_subfault_discretization (fg : FaultGeometry)
    (index : ℤ) : Except BeatError (ℕ × ℕ) :=
  match fg._check_index index with
  | some e => .error e
  | none => (pythonGet fg.ordering.vmap index).map PatchMap.shp

/-- Model of `FaultGeometry.patchmap(index, dipidx, strikeidx)`:
`self.ordering.vmap[index].indexmap[dipidx, strikeidx]` (note: the source
performs no `_check_index` here, only plain list indexing). -/
def FaultGeometry.patchmap (fg : FaultGeometry) (index : ℤ)
    (dipidx strikeidx : ℕ) : Except BeatError ℤ :=
  (pythonGet fg.ordering.vmap index).map fun pm => pm.indexmap dipidx strikeidx

/-- Model of `positions2idxs(positions, cell_size)` (numpy backend, one position):
`round((positions - cell_size / 2.) / cell_size).astype('int16')`. -/
def positions2idxs (positions : ℚ) (cell_size : ℚ) : ℤ :=
  astype_int16 (np_round ((positions - cell_size / 2) / cell_size))

/-- Model of `FaultGeometry.fault_locations2idxs`: apply `positions2idxs` with the
dip patch size to the dip position and with the strike patch size to the
strike position. -/
def FaultGeometry.fault_locations2idxs (fg : FaultGeometry)
    (positions_dip positions_strike : ℚ) : ℤ × ℤ :=
  (positions2idxs positions_dip fg.ordering.patch_size_dip,
   positions2idxs positions_strike fg.ordering.patch_size_strike)

/-- The configuration of one invocation of the rupture-time solver:
the validated slowness field, the finite-difference spacings it uses on the
two grid axes, the grid shape, and the nucleation cell. -/
structure SweepResult where
  slownesses : List ℚ
  spacing_dip : ℚ
  spacing_strike : ℚ
  n_patch_strike : ℕ
  n_patch_dip : ℕ
  nuc_x : ℤ
  nuc_y : ℤ
deriving DecidableEq

/-- Modelled from the spec: `fast_sweep.get_rupture_times_numpy` (module
`beat.fast_sweeping`) is repository code that is not under `src/`; only its
call site in `FaultGeometry.get_subfault_starttimes` is.  Per that call it
receives a single grid-spacing argument `patch_size`; per spec §4.6 the
spacing is independent of the patch index, so the one supplied value is the
finite-difference spacing on both axes.  Per spec §4.6 failure modes it
rejects non-positive slowness entries with `InvalidSlowness` and a
nucleation index outside the `(n_patch_dip, n_patch_strike)` grid with
`InvalidNucleation`; on either error no start-time grid is produced.  The
eikonal sweep iteration itself is inspected by no claim; its validated
configuration is returned. -/
def get_rupture_times_numpy (slownesses : List ℚ) (patch_size : ℚ)
    (n_patch_strike n_patch_dip : ℕ) (nuc_x nuc_y : ℤ) :
    Except BeatError SweepResult :=
  if slownesses.any fun s => decide (s ≤ 0) then .error .invalidSlowness
  else if nuc_y < 0 ∨ (n_patch_dip : ℤ) ≤ nuc_y ∨ nuc_x < 0 ∨
      (n_patch_strike : ℤ) ≤ nuc_x then .error .invalidNucleation
  else .ok ⟨slownesses, patch_size, patch_size, n_patch_strike, n_patch_dip,
            nuc_x, nuc_y⟩

/-- Model of `FaultGeometry.get_subfault_starttimes`: look up the subfault shape,
form `slownesses = 1. / rupture_velocities.reshape((npw, npl))` (the reshape
is shape bookkeeping; it raises when the array size does not match), and
call `fast_sweep.get_rupture_times_numpy(slownesses,
self.ordering.patch_size_dip, n_patch_strike=npl, n_patch_dip=npw,
nuc_x=nuc_strike_idx, nuc_y=nuc_dip_idx)`.  Note that the only patch size
forwarded is `patch_size_dip`. -/
def FaultGeometry.get_subfault_starttimes (fg : FaultGeometry) (index : ℤ)
    (rupture_velocities : List ℚ) (nuc_dip_idx nuc_strike_idx : ℤ) :
    Except BeatError SweepResult :=
  match fg.get_subfault_discretization index with
  | .error e => .error e
  | .ok (npw, npl) =>
      if rupture_velocities.length ≠ npw * npl then .error .valueErrorReshape
      else
        get_rupture_times_numpy (rupture_velocities.map fun v => 1 / v)
          fg.ordering.patch_size_dip npl npw nuc_strike_idx nuc_dip_idx

/-- The storing loop of `FaultGeometry.setup_subfaults`: for each source at
running index `i`, raise `FaultGeometryError` when the key is already
present and `replace` is not set, otherwise write the entry and continue.
Returns the dict contents after the loop (or at the raise) together with
the raised error, if any. -/
def setupLoop (datatype component : String) (replace : Bool) :
    List RectangularSource → ℕ → List (String × RectangularSource) →
    List (String × RectangularSource) × Option BeatError
  | [], _, store => (store, none)
  | s :: rest, i, store =>
      if (storeLookup store (subfault_key datatype component i)).isSome ∧
          replace = false then
        (store, some .faultGeometryDuplicate)
      else
        setupLoop datatype component replace rest (i + 1)
          (storeSet store (subfault_key datatype component i) s)

/-- Model of `FaultGeometry.setup_subfaults(datatype, component, ext_sources,
replace)`.  The first component of the result is the geometry after the
call (Python mutates in place, so on a raise the writes made so far
persist); the second is the raised error, if any. -/
def FaultGeometry.setup_subfaults (fg : FaultGeometry)
    (datatype component : String) (ext_sources : List RectangularSource)
    (replace : Bool) : FaultGeometry × Option BeatError :=
  if ¬ (datatype ∈ fg.datatypes) then (fg, some .typeErrorDatatype)
  else if ¬ (component ∈ fg.components) then (fg, some .typeErrorComponent)
  else if ext_sources.length ≠ fg.nsubfaults then
    (fg, some .faultGeometryMismatch)
  else
    let res := setupLoop datatype component replace ext_sources 0
      fg._ext_sources
    ({ fg with _ext_sources := res.1 }, res.2)

/-- Constant `km = 1000.` -/
def km : ℚ := 1000

/-- The inner source loop of `discretize_sources` for one
`(datatype, component)` pair: the dict `param_mod` is created once per
component, and inside the loop `param_mod['rake'] += s.rake` mutates it, so
the rake accumulates over the already-processed planes.  Each plane is then
updated with the current `param_mod` and re-extended. -/
def extend_sources (ew el pwm plm : ℚ) :
    List RectangularSource → ParamMod → List RectangularSource
  | [], _ => []
  | src :: rest, pm =>
      let pm' := { pm with rake := pm.rake + src.rake }
      (src.update pm').extent_source ew el pwm plm ::
        extend_sources ew el pwm plm rest pm'

/-- The `for var in varnames` loop of `discretize_sources` for one
datatype: look up `slip_directions[var]`, build the per-component extended
sources, and register them with `setup_subfaults` (a raise aborts the whole
discretization). -/
def setup_components (datatype : String) (sources : List RectangularSource)
    (ew el pwm plm : ℚ) :
    List String → FaultGeometry → Except BeatError FaultGeometry
  | [], fault => .ok fault
  | var :: rest, fault =>
      match slip_directions var with
      | none => .error .keyErrorSlipDirections
      | some pm =>
          let res := fault.setup_subfaults datatype var
            (extend_sources ew el pwm plm sources pm) false
          match res.2 with
          | some e => .error e
          | none => setup_components datatype sources ew el pwm plm rest res.1

/-- The `for datatype in datatypes` loop of `discretize_sources`. -/
def setup_datatypes (sources : List RectangularSource) (ew el pwm plm : ℚ)
    (varnames : List String) :
    List String → FaultGeometry → Except BeatError FaultGeometry
  | [], fault => .ok fault
  | datatype :: rest, fault =>
      match setup_components datatype sources ew el pwm plm varnames fault with
      | .error e => .error e
      | .ok fault' => setup_datatypes sources ew el pwm plm varnames rest fault'

/-- Model of `discretize_sources(sources, extension_width, extension_length,
patch_width, patch_length, datatypes, varnames)`.  The two seismic-mode
checks come first, before any ordering or geometry is built; then the patch
counts `npls`/`npws` are computed from the extended planes
(`int(num.ceil(ext.length / patch_length_m))`, modelled from the spec for
the missing `extent_source`), the `FaultOrdering` and `FaultGeometry` are
built, and the planes are registered per datatype and slip component. -/
def discretize_sources (sources : List RectangularSource)
    (extension_width extension_length : ℚ) (patch_width patch_length : ℚ)
    (datatypes : List String) (varnames : List String) :
    Except BeatError FaultGeometry :=
  if "seismic" ∈ datatypes ∧ patch_length ≠ patch_width then
    .error .valueErrorNonSquare
  else if "seismic" ∈ datatypes ∧ 1 < sources.length then
    .error .valueErrorMultiSource
  else
    let patch_length_m := patch_length * km
    let patch_width_m := patch_width * km
    let npls := sources.map fun source =>
      (⌈(source.extent_source extension_width extension_length
          patch_width_m patch_length_m).length / patch_length_m⌉).toNat
    let npws := sources.map fun source =>
      (⌈(source.extent_source extension_width extension_length
          patch_width_m patch_length_m).width / patch_width_m⌉).toNat
    let ordering := FaultOrdering.init npls npws patch_length patch_width
    setup_datatypes sources extension_width extension_length
      patch_width_m patch_length_m varnames datatypes
      (FaultGeometry.mk datatypes varnames [] ordering)

/-! ## Helper lemmas about the ordering construction -/

/-- The per-subfault patch counts `npl * npw` in subfault order. -/
def patchCounts (npls npws : List ℕ) : List ℕ :=
  (npls.zip npws).map fun p => p.1 * p.2

theorem buildVmap_length (l : List (ℕ × ℕ)) (dim count : ℕ) :
    (buildVmap l dim count).1.length = l.length := by
  induction l generalizing dim count with
  | nil => rfl
  | cons p rest ih => obtain ⟨npl, npw⟩ := p; simp [buildVmap, ih]

theorem buildVmap_snd (l : List (ℕ × ℕ)) (dim count : ℕ) :
    (buildVmap l dim count).2 = dim + (l.map fun p => p.1 * p.2).sum := by
  induction l generalizing dim count with
  | nil => simp [buildVmap]
  | cons p rest ih =>
      obtain ⟨npl, npw⟩ := p
      simp [buildVmap, ih]
      ring

theorem buildVmap_get (l : List (ℕ × ℕ)) (dim count : ℕ) (i : ℕ)
    (h : i < (buildVmap l dim count).1.length) :
    (buildVmap l dim count).1.get ⟨i, h⟩ =
      { count := count + i
        slc := (dim + ((l.map fun p => p.1 * p.2).take i).sum,
                dim + ((l.map fun p => p.1 * p.2).take (i + 1)).sum)
        shp := ((l.getD i (0, 0)).2, (l.getD i (0, 0)).1)
        npatches := (l.getD i (0, 0)).1 * (l.getD i (0, 0)).2
        indexmap := fun d s =>
          astype_int16 ((d * (l.getD i (0, 0)).1 + s : ℕ)) } := by
  induction l generalizing dim count i with
  | nil => exact absurd h (by simp [buildVmap] at h ⊢)
  | cons p rest ih =>
      obtain ⟨npl, npw⟩ := p
      cases i with
      | zero => simp [buildVmap]
      | succ i =>
          have h' : i < (buildVmap rest (dim + npl * npw) (count + 1)).1.length := by
            rw [buildVmap_length]
            rw [buildVmap_length] at h
            simpa using h
          have := ih (dim + npl * npw) (count + 1) i h'
          simp only [buildVmap, List.get_cons_succ]
          rw [this]
          simp [List.take_succ_cons, List.sum_cons]
          constructor
          · omega
          · constructor
            · ring
            · ring

theorem sum_take_le (L : List ℕ) (i : ℕ) : (L.take i).sum ≤ L.sum := by
  conv_rhs => rw [← List.take_append_drop i L]
  rw [List.sum_append]
  exact Nat.le_add_right _ _

theorem sum_take_mono (L : List ℕ) {i j : ℕ} (h : i ≤ j) :
    (L.take i).sum ≤ (L.take j).sum := by
  have heq : L.take i = (L.take j).take i := by
    rw [List.take_take, min_eq_left h]
  rw [heq]
  exact sum_take_le _ _

theorem exists_take_interval (L : List ℕ) (x : ℕ) (hx : x < L.sum) :
    ∃ i, ∃ _ : i < L.length,
      (L.take i).sum ≤ x ∧ x < (L.take (i + 1)).sum := by
  induction L generalizing x with
  | nil => simp at hx
  | cons c rest ih =>
      by_cases hc : x < c
      · exact ⟨0, by simp, by simp, by simpa using hc⟩
      · push_neg at hc
        have hx' : x - c < rest.sum := by
          simp only [List.sum_cons] at hx
          omega
        obtain ⟨i, hi, h1, h2⟩ := ih (x - c) hx'
        refine ⟨i + 1, by simpa using hi, ?_, ?_⟩
        · simp only [List.take_succ_cons, List.sum_cons]
          omega
        · simp only [List.take_succ_cons, List.sum_cons]
          omega

theorem init_vmap_length (npls npws : List ℕ) (pss psd : ℚ) :
    (FaultOrdering.init npls npws pss psd).vmap.length =
      (npls.zip npws).length := by
  simp [FaultOrdering.init, buildVmap_length]

theorem init_vmap_get (npls npws : List ℕ) (pss psd : ℚ) (i : ℕ)
    (h : i < (FaultOrdering.init npls npws pss psd).vmap.length) :
    (FaultOrdering.init npls npws pss psd).vmap.get ⟨i, h⟩ =
      { count := i
        slc := (((patchCounts npls npws).take i).sum,
                ((patchCounts npls npws).take (i + 1)).sum)
        shp := (((npls.zip npws).getD i (0, 0)).2,
                ((npls.zip npws).getD i (0, 0)).1)
        npatches := ((npls.zip npws).getD i (0, 0)).1 *
          ((npls.zip npws).getD i (0, 0)).2
        indexmap := fun d s =>
          astype_int16 ((d * ((npls.zip npws).getD i (0, 0)).1 + s : ℕ)) } := by
  have := buildVmap_get (npls.zip npws) 0 0 i h
  simp only [FaultOrdering.init] at h ⊢
  rw [this]
  simp [patchCounts]

theorem init_npatches (npls npws : List ℕ) (pss psd : ℚ) :
    (FaultOrdering.init npls npws pss psd).npatches =
      (patchCounts npls npws).sum := by
  simp [FaultOrdering.init, buildVmap_snd, patchCounts]

/-- Claim C1: for every `FaultOrdering` built from per-subfault patch counts
`(npls, npws)`, the flat slices of its `PatchMap`s are the contiguous
half-open ranges of the running prefix sums of the per-subfault counts, in
subfault-index order; they are pairwise disjoint; their union is exactly
`[0, npatches)`; and `npatches` is the sum over subfaults of
`n_strike * n_dip`. -/
theorem C1_flat_slices_partition (npls npws : List ℕ) (pss psd : ℚ) :
    (FaultOrdering.init npls npws pss psd).npatches =
        (patchCounts npls npws).sum ∧
    (∀ i (h : i < (FaultOrdering.init npls npws pss psd).vmap.length),
      ((FaultOrdering.init npls npws pss psd).vmap.get ⟨i, h⟩).slc =
        (((patchCounts npls npws).take i).sum,
         ((patchCounts npls npws).take (i + 1)).sum)) ∧
    (∀ i j (hi : i < (FaultOrdering.init npls npws pss psd).vmap.length)
        (hj : j < (FaultOrdering.init npls npws pss psd).vmap.length),
      i < j →
      ((FaultOrdering.init npls npws pss psd).vmap.get ⟨i, hi⟩).slc.2 ≤
        ((FaultOrdering.init npls npws pss psd).vmap.get ⟨j, hj⟩).slc.1) ∧
    (∀ x : ℕ,
      (∃ i, ∃ h : i < (FaultOrdering.init npls npws pss psd).vmap.length,
        ((FaultOrdering.init npls npws pss psd).vmap.get ⟨i, h⟩).slc.1 ≤ x ∧
        x < ((FaultOrdering.init npls npws pss psd).vmap.get ⟨i, h⟩).slc.2) ↔
      x < (FaultOrdering.init npls npws pss psd).npatches) := by
  refine ⟨init_npatches npls npws pss psd, ?_, ?_, ?_⟩
  · intro i h
    rw [init_vmap_get]
  · intro i j hi hj hij
    rw [init_vmap_get, init_vmap_get]
    exact sum_take_mono _ hij
  · intro x
    constructor
    · rintro ⟨i, h, h1, h2⟩
      rw [init_vmap_get] at h2
      rw [init_npatches]
      exact lt_of_lt_of_le h2 (sum_take_le _ _)
    · intro hx
      rw [init_npatches] at hx
      obtain ⟨i, hi, h1, h2⟩ := exists_take_interval _ x hx
      have hi' : i < (FaultOrdering.init npls npws pss psd).vmap.length := by
        rw [init_vmap_length]
        simpa [patchCounts] using hi
      refine ⟨i, hi', ?_, ?_⟩
      · rw [init_vmap_get]; exact h1
      · rw [init_vmap_get]; exact h2

/-- Witness for C1 at a concrete discretization. -/
theorem C1_flat_slices_partition_witness :
    (FaultOrdering.init [2, 3] [4, 5] 1 1).npatches = 23 ∧
    ((FaultOrdering.init [2, 3] [4, 5] 1 1).vmap.get
        ⟨1, by decide⟩).slc = (8, 23) := by
  have h := C1_flat_slices_partition [2, 3] [4, 5] 1 1
  refine ⟨?_, ?_⟩
  · rw [h.1]; decide
  · rw [h.2.1 1 (by decide)]; decide

/-! ## Helper lemmas for list indexing and the int16 cast -/

theorem pythonGet_ofNat (l : List PatchMap) (i : ℕ) (h : i < l.length) :
    pythonGet l (i : ℤ) = .ok (l.get ⟨i, h⟩) := by
  have hnn : ¬ ((i : ℤ) < 0) := by omega
  simp only [pythonGet]
  rw [if_neg hnn, if_pos (by omega : (0 : ℤ) ≤ (i : ℤ))]
  simp [List.getElem?_eq_getElem h]

theorem pythonGet_neg (l : List PatchMap) (k : ℕ) (h1 : 1 ≤ k)
    (h2 : k ≤ l.length) :
    pythonGet l (-(k : ℤ)) = .ok (l.get ⟨l.length - k, by omega⟩) := by
  have hneg : (-(k : ℤ)) < 0 := by omega
  simp only [pythonGet]
  rw [if_pos hneg,
    if_pos (by omega : (0 : ℤ) ≤ -(k : ℤ) + (l.length : ℤ))]
  have htn : (-(k : ℤ) + (l.length : ℤ)).toNat = l.length - k := by omega
  rw [htn]
  have hlt : l.length - k < l.length := by omega
  simp [List.getElem?_eq_getElem hlt]

theorem astype_int16_eq_self {x : ℤ} (h0 : 0 ≤ x) (h1 : x ≤ 32767) :
    astype_int16 x = x := by
  unfold astype_int16
  omega

/-- Claim C2 counterexample: for the subfault of grid shape
`(n_dip, n_strike) = (1, 32769)` the cell `(0, 32768)` is valid, yet
`FaultGeometry.patchmap` returns the int16-wrapped value `-32768`, which is
neither the row-major number `0 * 32769 + 32768` nor an element of
`{0, ..., n_dip * n_strike - 1}`; so the map is not the claimed bijection. -/
theorem C2_patchmap_counterexample :
    ((FaultGeometry.mk ["geodetic"] ["uparr"] []
        (FaultOrdering.init [32769] [1] 1 1)).ordering.vmap.getD 0
          default).shp = (1, 32769) ∧
    (FaultGeometry.mk ["geodetic"] ["uparr"] []
        (FaultOrdering.init [32769] [1] 1 1)).patchmap 0 0 32768 =
      .ok (-32768) ∧
    ((-32768 : ℤ) ≠ ((0 * 32769 + 32768 : ℕ) : ℤ)) ∧
    ¬ ((0 : ℤ) ≤ -32768) := by
  exact ⟨rfl, rfl, by decide, by decide⟩

/-- Claim C2 (amended): for every subfault with grid shape
`(n_dip, n_strike) = (npw, npl)` whose patch count `npw * npl` is at most
`32768` (so that every row-major number fits in an int16), the map
`(dip_idx, strike_idx) ↦ patchmap` is given by
`flat = dip_idx * n_strike + strike_idx` and is a bijection from
`[0, npw) × [0, npl)` onto `{0, ..., npw * npl - 1}`.  The original claim
omitted the int16 bound and fails for larger subfaults
(`C2_patchmap_counterexample`). -/
theorem C2_patchmap_bijection (dts comps : List String)
    (store : List (String × RectangularSource))
    (npls npws : List ℕ) (pss psd : ℚ) (i npl npw : ℕ)
    (hi : i < (npls.zip npws).length)
    (hval : (npls.zip npws).getD i (0, 0) = (npl, npw))
    (hcount : npw * npl ≤ 32768) :
    (∀ d s, d < npw → s < npl →
      (FaultGeometry.mk dts comps store
          (FaultOrdering.init npls npws pss psd)).patchmap i d s =
        .ok ((d * npl + s : ℕ))) ∧
    (∀ d s d' s', d < npw → s < npl → d' < npw → s' < npl →
      (FaultGeometry.mk dts comps store
          (FaultOrdering.init npls npws pss psd)).patchmap i d s =
        (FaultGeometry.mk dts comps store
          (FaultOrdering.init npls npws pss psd)).patchmap i d' s' →
      d = d' ∧ s = s') ∧
    (∀ f : ℕ, f < npw * npl → ∃ d s, d < npw ∧ s < npl ∧
      (FaultGeometry.mk dts comps store
          (FaultOrdering.init npls npws pss psd)).patchmap i d s =
        .ok (f : ℤ)) := by
  have hlen : i < (FaultOrdering.init npls npws pss psd).vmap.length := by
    rw [init_vmap_length]; exact hi
  have hfor : ∀ d s : ℕ, d < npw → s < npl →
      (FaultGeometry.mk dts comps store
          (FaultOrdering.init npls npws pss psd)).patchmap i d s =
        .ok ((d * npl + s : ℕ)) := by
    intro d s hd hs
    show Except.map _ (pythonGet _ _) = _
    rw [pythonGet_ofNat _ i hlen, init_vmap_get _ _ _ _ i hlen]
    show Except.ok (astype_int16 _) = _
    rw [hval]
    have hb : d * npl + s < npw * npl := by
      calc d * npl + s < d * npl + npl := by omega
        _ = (d + 1) * npl := by ring
        _ ≤ npw * npl := Nat.mul_le_mul_right _ (by omega)
    rw [astype_int16_eq_self (by positivity) (by push_cast; omega)]
  refine ⟨hfor, ?_, ?_⟩
  · intro d s d' s' hd hs hd' hs' heq
    rw [hfor d s hd hs, hfor d' s' hd' hs'] at heq
    have h1 : ((d * npl + s : ℕ) : ℤ) = ((d' * npl + s' : ℕ) : ℤ) := by
      exact Except.ok.inj heq
    have h2 : d * npl + s = d' * npl + s' := by exact_mod_cast h1
    have h0 : 0 < npl := by omega
    have hmod : s = s' := by
      have m1 : (d * npl + s) % npl = s := by
        rw [add_comm, Nat.add_mul_mod_self_right, Nat.mod_eq_of_lt hs]
      have m2 : (d' * npl + s') % npl = s' := by
        rw [add_comm, Nat.add_mul_mod_self_right, Nat.mod_eq_of_lt hs']
      rw [← m1, ← m2, h2]
    refine ⟨?_, hmod⟩
    have : d * npl = d' * npl := by omega
    exact Nat.eq_of_mul_eq_mul_right h0 this
  · intro f hf
    have h0 : 0 < npl := by
      rcases Nat.eq_zero_or_pos npl with h | h
      · subst h; simp at hf
      · exact h
    refine ⟨f / npl, f % npl, ?_, Nat.mod_lt _ h0, ?_⟩
    · exact (Nat.div_lt_iff_lt_mul h0).mpr hf
    · rw [hfor _ _ ((Nat.div_lt_iff_lt_mul h0).mpr hf) (Nat.mod_lt _ h0)]
      congr 1
      exact_mod_cast Nat.div_add_mod' f npl

/-- Witness for the amended C2 at a concrete subfault of shape `(2, 3)`. -/
theorem C2_patchmap_bijection_witness :
    (FaultGeometry.mk ["geodetic"] ["uparr"] []
        (FaultOrdering.init [3] [2] 1 1)).patchmap 0 1 2 = .ok 5 := by
  have h := C2_patchmap_bijection ["geodetic"] ["uparr"] [] [3] [2] 1 1 0 3 2
    (by decide) (by decide) (by decide)
  have := h.1 1 2 (by decide) (by decide)
  simpa using this

theorem patchmap_init (dts comps : List String)
    (store : List (String × RectangularSource))
    (npls npws : List ℕ) (pss psd : ℚ) (i : ℕ)
    (hi : i < (npls.zip npws).length) (d s : ℕ) :
    (FaultGeometry.mk dts comps store
        (FaultOrdering.init npls npws pss psd)).patchmap i d s =
      .ok (astype_int16 ((d * ((npls.zip npws).getD i (0, 0)).1 + s : ℕ))) := by
  have hlen : i < (FaultOrdering.init npls npws pss psd).vmap.length := by
    rw [init_vmap_length]; exact hi
  show Except.map _ (pythonGet _ _) = _
  rw [pythonGet_ofNat _ i hlen, init_vmap_get _ _ _ _ i hlen]
  rfl

/-- Claim C10 counterexample: a subfault with exactly `32768` patches has
*more than `32767`* patches, yet its `indexmap` holds the unwrapped values
`0, ..., 32767` (the map over the whole index range equals the identity
numbering), so it contains no wrapped negative entry and grid-to-flat is
still a bijection onto `0..patch_count-1`; the claim's threshold is off by
one. -/
theorem C10_threshold_counterexample :
    32767 < (FaultOrdering.init [32768] [1] 1 1).npatches ∧
    (List.range 32768).map
        ((FaultGeometry.mk ["geodetic"] ["uparr"] []
            (FaultOrdering.init [32768] [1] 1 1)).patchmap 0 0) =
      (List.range 32768).map
        (fun s : ℕ => (Except.ok (s : ℤ) : Except BeatError ℤ)) := by
  constructor
  · rw [init_npatches]
    norm_num [patchCounts]
  · apply List.map_congr_left
    intro s hs
    rw [List.mem_range] at hs
    have h := patchmap_init ["geodetic"] ["uparr"] [] [32768] [1] 1 1 0
      (by decide) 0 s
    simp only [Nat.cast_zero] at h
    rw [h]
    have hg : (([32768] : List ℕ).zip [1]).getD 0 (0, 0) = (32768, 1) := rfl
    rw [hg]
    simp only [Nat.zero_mul, Nat.zero_add]
    rw [astype_int16_eq_self (by positivity)
      (by exact_mod_cast (by omega : s ≤ 32767))]

/-- Claim C10 (amended): `positions2idxs` casts through `astype_int16` and
every `indexmap` entry is the int16 cast of the row-major position, so any
value outside `[-32768, 32767]` wraps modulo `2 ^ 16`; consequently, for a
subfault with more than `32768` patches (not `32767`: see
`C10_threshold_counterexample`) the `indexmap` contains a wrapped negative
entry — at grid cell `(32768 / npl, 32768 % npl)` the value is `-32768` —
so the grid-to-flat map is no longer a bijection onto
`0..patch_count-1`. -/
theorem C10_int16_wrap (dts comps : List String)
    (store : List (String × RectangularSource))
    (npls npws : List ℕ) (pss psd : ℚ) (i npl npw : ℕ)
    (hi : i < (npls.zip npws).length)
    (hval : (npls.zip npws).getD i (0, 0) = (npl, npw))
    (hcount : 32768 < npl * npw) :
    (∀ x : ℤ, astype_int16 x = x - 65536 * ((x + 32768) / 65536) ∧
      -32768 ≤ astype_int16 x ∧ astype_int16 x ≤ 32767) ∧
    (∀ p c : ℚ,
      positions2idxs p c = astype_int16 (np_round ((p - c / 2) / c))) ∧
    (32768 / npl < npw ∧ 32768 % npl < npl ∧
      (FaultGeometry.mk dts comps store
          (FaultOrdering.init npls npws pss psd)).patchmap i
        (32768 / npl) (32768 % npl) = .ok (-32768) ∧
      ((-32768 : ℤ) < 0)) := by
  have h0 : 0 < npl := by
    rcases Nat.eq_zero_or_pos npl with h | h
    · subst h; simp at hcount
    · exact h
  refine ⟨?_, fun _ _ => rfl, ?_, Nat.mod_lt _ h0, ?_, by decide⟩
  · intro x
    refine ⟨?_, ?_, ?_⟩ <;> unfold astype_int16 <;> omega
  · refine (Nat.div_lt_iff_lt_mul h0).mpr ?_
    rw [Nat.mul_comm]
    exact hcount
  · rw [patchmap_init dts comps store npls npws pss psd i hi, hval]
    have : 32768 / npl * npl + 32768 % npl = 32768 := Nat.div_add_mod' 32768 npl
    rw [this]
    rfl

/-- Witness for the amended C10 at a subfault of shape `(1, 32769)`. -/
theorem C10_int16_wrap_witness :
    (FaultGeometry.mk ["geodetic"] ["uparr"] []
        (FaultOrdering.init [32769] [1] 1 1)).patchmap 0 (32768 / 32769)
      (32768 % 32769) = .ok (-32768) := by
  have h := C10_int16_wrap ["geodetic"] ["uparr"] [] [32769] [1] 1 1 0
    32769 1 (by decide) (by decide) (by decide)
  have := h.2.2.2.2.1
  simpa using this

theorem np_round_intCast (n : ℤ) : np_round ((n : ℚ)) = n := by
  unfold np_round
  rw [Int.fract_intCast]
  rw [if_neg (by norm_num)]
  exact round_intCast n

theorem positions2idxs_center (d : ℕ) (c : ℚ) (hc : c ≠ 0) :
    positions2idxs (((d : ℚ) + 1 / 2) * c) c = astype_int16 ((d : ℕ) : ℤ) := by
  unfold positions2idxs
  have harg : (((d : ℚ) + 1 / 2) * c - c / 2) / c = (((d : ℕ) : ℤ) : ℚ) := by
    push_cast
    field_simp
    ring
  rw [harg, np_round_intCast]

/-- Claim C8 counterexample: in a subfault of grid shape `(32769, 1)` the
cell `(d, s) = (32768, 0)` is valid, but applying the position-to-index
conversion to its patch-center coordinates returns `(-32768, 0)` — the
int16 cast inside `positions2idxs` wraps — not `(32768, 0)`. -/
theorem C8_center_roundtrip_counterexample :
    ((FaultGeometry.mk ["geodetic"] ["uparr"] []
        (FaultOrdering.init [1] [32769] 1 1)).ordering.vmap.getD 0
          default).shp = (32769, 1) ∧
    (FaultGeometry.mk ["geodetic"] ["uparr"] []
        (FaultOrdering.init [1] [32769] 1 1)).fault_locations2idxs
      ((((32768 : ℕ) : ℚ) + 1 / 2) * 1) ((((0 : ℕ) : ℚ) + 1 / 2) * 1) =
      (-32768, 0) ∧
    (((-32768 : ℤ), (0 : ℤ)) ≠ ((32768 : ℤ), (0 : ℤ))) := by
  refine ⟨rfl, ?_, by decide⟩
  show (positions2idxs _ 1, positions2idxs _ 1) = _
  rw [positions2idxs_center 32768 1 one_ne_zero,
      positions2idxs_center 0 1 one_ne_zero]
  decide

/-- Claim C8 (amended): for every grid cell `(d, s)` with `d ≤ 32767` and
`s ≤ 32767` (so that the int16 cast in `positions2idxs` is the identity)
and nonzero patch sizes, the position-to-index conversion applied to the
patch-center coordinates `((d + 1/2) * patch_size_dip,
(s + 1/2) * patch_size_strike)` returns exactly `(d, s)`.  The original
claim, quantified over all valid cells of arbitrarily large subfaults,
fails at cell `(32768, 0)` (`C8_center_roundtrip_counterexample`). -/
theorem C8_center_roundtrip (fg : FaultGeometry) (d s : ℕ)
    (hdip : fg.ordering.patch_size_dip ≠ 0)
    (hstrike : fg.ordering.patch_size_strike ≠ 0)
    (hd : d ≤ 32767) (hs : s ≤ 32767) :
    fg.fault_locations2idxs
        (((d : ℚ) + 1 / 2) * fg.ordering.patch_size_dip)
        (((s : ℚ) + 1 / 2) * fg.ordering.patch_size_strike) =
      ((d : ℤ), (s : ℤ)) := by
  show (positions2idxs _ _, positions2idxs _ _) = _
  rw [positions2idxs_center d _ hdip, positions2idxs_center s _ hstrike]
  rw [astype_int16_eq_self (by positivity) (by exact_mod_cast hd),
      astype_int16_eq_self (by positivity) (by exact_mod_cast hs)]

/-- Witness for the amended C8 at cell `(5, 7)` with unit patch sizes. -/
theorem C8_center_roundtrip_witness :
    (FaultGeometry.mk ["geodetic"] ["uparr"] []
        (FaultOrdering.init [3] [2] 1 1)).fault_locations2idxs
      ((((5 : ℕ) : ℚ) + 1 / 2) *
        (FaultGeometry.mk ["geodetic"] ["uparr"] []
          (FaultOrdering.init [3] [2] 1 1)).ordering.patch_size_dip)
      ((((7 : ℕ) : ℚ) + 1 / 2) *
        (FaultGeometry.mk ["geodetic"] ["uparr"] []
          (FaultOrdering.init [3] [2] 1 1)).ordering.patch_size_strike) =
      (((5 : ℕ) : ℤ), ((7 : ℕ) : ℤ)) :=
  C8_center_roundtrip _ 5 7 (by decide) (by decide) (by norm_num) (by norm_num)

theorem get_eq_getD (l : List PatchMap) (i : ℕ) (h : i < l.length) :
    l.get ⟨i, h⟩ = l.getD i default := by
  rw [List.getD_eq_getElem l default h]
  simp

/-- Claim C9: `_check_index` only rejects indices above `nsubfaults - 1`,
so for every negative index `-k` with `1 ≤ k ≤ nsubfaults`,
`get_patch_indexes (-k)` and `get_subfault_discretization (-k)` raise no
unknown-subfault error but return the slice and shape of subfault
`nsubfaults - k`, by Python negative list indexing into
`ordering.vmap`. -/
theorem C9_negative_index (fg : FaultGeometry) (k : ℕ) (h1 : 1 ≤ k)
    (h2 : k ≤ fg.nsubfaults) :
    fg.get_patch_indexes (-(k : ℤ)) =
      .ok ((fg.ordering.vmap.getD (fg.nsubfaults - k) default).slc) ∧
    fg.get_subfault_discretization (-(k : ℤ)) =
      .ok ((fg.ordering.vmap.getD (fg.nsubfaults - k) default).shp) := by
  have hlen : fg.nsubfaults = fg.ordering.vmap.length := rfl
  have hck : fg._check_index (-(k : ℤ)) = none := by
    unfold FaultGeometry._check_index
    rw [if_neg (by omega)]
  have hvlen : k ≤ fg.ordering.vmap.length := by omega
  have hget := pythonGet_neg fg.ordering.vmap k h1 hvlen
  have hgd : fg.ordering.vmap.get
      ⟨fg.ordering.vmap.length - k, by omega⟩ =
      fg.ordering.vmap.getD (fg.nsubfaults - k) default :=
    get_eq_getD _ _ (by omega)
  constructor
  · unfold FaultGeometry.get_patch_indexes
    rw [hck, hget, hgd]
    rfl
  · unfold FaultGeometry.get_subfault_discretization
    rw [hck, hget, hgd]
    rfl

/-- Witness for C9: on a two-subfault geometry, index `-1` yields the
slice and shape of subfault `1`. -/
theorem C9_negative_index_witness :
    (FaultGeometry.mk ["geodetic"] ["uparr"] []
        (FaultOrdering.init [2, 3] [1, 4] 1 1)).get_patch_indexes (-(1 : ℤ)) =
      .ok (2, 14) ∧
    (FaultGeometry.mk ["geodetic"] ["uparr"] []
        (FaultOrdering.init [2, 3] [1, 4] 1 1)).get_subfault_discretization
      (-(1 : ℤ)) = .ok (4, 3) := by
  have h := C9_negative_index (FaultGeometry.mk ["geodetic"] ["uparr"] []
      (FaultOrdering.init [2, 3] [1, 4] 1 1)) 1 (by decide) (by decide)
  obtain ⟨ha, hb⟩ := h
  constructor
  · rw [show (-(1 : ℤ)) = (-((1 : ℕ) : ℤ)) by norm_num]
    rw [ha]
    rfl
  · rw [show (-(1 : ℤ)) = (-((1 : ℕ) : ℤ)) by norm_num]
    rw [hb]
    rfl

/-- Claim C3 counterexample: on an ordering with
`patch_size_strike = 2 ≠ 3 = patch_size_dip`, the solver invocation made by
`get_subfault_starttimes` uses `3 = patch_size_dip` as the strike-axis
spacing, not `patch_size_strike`: only `patch_size_dip` is forwarded to
`fast_sweep.get_rupture_times_numpy`. -/
theorem C3_strike_spacing_counterexample :
    (FaultGeometry.mk ["geodetic"] ["uparr"] []
        (FaultOrdering.init [2] [2] 2 3)).ordering.patch_size_strike = 2 ∧
    Except.map SweepResult.spacing_strike
      ((FaultGeometry.mk ["geodetic"] ["uparr"] []
          (FaultOrdering.init [2] [2] 2 3)).get_subfault_starttimes 0
        [1, 1, 1, 1] 0 0) = .ok 3 ∧
    (3 : ℚ) ≠ 2 := by
  refine ⟨rfl, rfl, by norm_num⟩

/-- Claim C3 (amended): whenever `get_subfault_starttimes` reaches the
solver, the finite-difference spacing used along the dip axis *and* the one
used along the strike axis both equal `ordering.patch_size_dip` — the call
site forwards only `patch_size_dip`.  The original claim (strike spacing
equals `patch_size_strike`) holds only when the two patch sizes coincide,
e.g. under the square-patch constraint of seismic mode
(`C3_strike_spacing_counterexample`). -/
theorem C3_spacing_patch_size_dip (fg : FaultGeometry) (index : ℤ)
    (vels : List ℚ) (nd ns : ℤ) (r : SweepResult)
    (h : fg.get_subfault_starttimes index vels nd ns = .ok r) :
    r.spacing_dip = fg.ordering.patch_size_dip ∧
    r.spacing_strike = fg.ordering.patch_size_dip := by
  unfold FaultGeometry.get_subfault_starttimes at h
  split at h
  · exact absurd h (by simp)
  · split at h
    · exact absurd h (by simp)
    · unfold get_rupture_times_numpy at h
      split at h
      · exact absurd h (by simp)
      · split at h
        · exact absurd h (by simp)
        · obtain rfl := Except.ok.inj h
          exact ⟨rfl, rfl⟩

/-- Witness for the amended C3 on a square-patch geometry. -/
theorem C3_spacing_patch_size_dip_witness :
    (SweepResult.mk [1, 1, 1, 1] 1 1 2 2 0 0).spacing_dip =
      (FaultGeometry.mk ["geodetic"] ["uparr"] []
        (FaultOrdering.init [2] [2] 1 1)).ordering.patch_size_dip ∧
    (SweepResult.mk [1, 1, 1, 1] 1 1 2 2 0 0).spacing_strike =
      (FaultGeometry.mk ["geodetic"] ["uparr"] []
        (FaultOrdering.init [2] [2] 1 1)).ordering.patch_size_dip :=
  C3_spacing_patch_size_dip (FaultGeometry.mk ["geodetic"] ["uparr"] []
    (FaultOrdering.init [2] [2] 1 1)) 0 [1, 1, 1, 1] 0 0
    (SweepResult.mk [1, 1, 1, 1] 1 1 2 2 0 0) rfl

theorem starttimes_eq (fg : FaultGeometry) (index : ℤ) (vels : List ℚ)
    (nd ns : ℤ) (npw npl : ℕ)
    (hshp : fg.get_subfault_discretization index = .ok (npw, npl))
    (hlen : vels.length = npw * npl) :
    fg.get_subfault_starttimes index vels nd ns =
      get_rupture_times_numpy (vels.map fun v => 1 / v)
        fg.ordering.patch_size_dip npl npw ns nd := by
  unfold FaultGeometry.get_subfault_starttimes
  rw [hshp]
  simp only []
  rw [if_neg (by omega)]

/-- Claim C5: the start-time entry point fails with the spec's
`InvalidSlowness` whenever some slowness entry `1 / v` is non-positive
(equivalently — over the rational embedding, where `1 / 0 = 0` — whenever
some supplied rupture velocity is non-positive), and fails with
`InvalidNucleation` whenever the slownesses are all positive but the
nucleation index lies outside the `(n_dip, n_strike)` grid; in either case
the result is the error, never a start-time value. -/
theorem C5_solver_validation (fg : FaultGeometry) (index : ℤ)
    (vels : List ℚ) (nd ns : ℤ) (npw npl : ℕ)
    (hshp : fg.get_subfault_discretization index = .ok (npw, npl))
    (hlen : vels.length = npw * npl) :
    ((∃ v ∈ vels, 1 / v ≤ 0) →
      fg.get_subfault_starttimes index vels nd ns =
        .error .invalidSlowness) ∧
    ((∀ v ∈ vels, 0 < 1 / v) →
      (nd < 0 ∨ (npw : ℤ) ≤ nd ∨ ns < 0 ∨ (npl : ℤ) ≤ ns) →
      fg.get_subfault_starttimes index vels nd ns =
        .error .invalidNucleation) ∧
    (∀ v : ℚ, 1 / v ≤ 0 ↔ v ≤ 0) := by
  rw [starttimes_eq fg index vels nd ns npw npl hshp hlen]
  refine ⟨?_, ?_, fun v => one_div_nonpos⟩
  · intro hex
    unfold get_rupture_times_numpy
    have hany : ((vels.map fun v => 1 / v).any fun s => decide (s ≤ 0)) =
        true := by
      simp only [List.any_map, List.any_eq_true, Function.comp,
        decide_eq_true_eq]
      obtain ⟨v, hv, hle⟩ := hex
      exact ⟨v, hv, hle⟩
    rw [if_pos hany]
  · intro hall hnuc
    unfold get_rupture_times_numpy
    have hany : ¬ (((vels.map fun v => 1 / v).any fun s => decide (s ≤ 0)) =
        true) := by
      simp only [List.any_map, List.any_eq_true, Function.comp,
        decide_eq_true_eq]
      rintro ⟨v, hv, hle⟩
      have hpos := hall v hv
      linarith
    rw [if_neg hany, if_pos hnuc]

/-- Witness for C5: a non-positive velocity yields `InvalidSlowness`; an
out-of-bounds nucleation index yields `InvalidNucleation`. -/
theorem C5_solver_validation_witness :
    (FaultGeometry.mk ["geodetic"] ["uparr"] []
        (FaultOrdering.init [2] [2] 1 1)).get_subfault_starttimes 0
      [-1, 1, 1, 1] 0 0 = .error .invalidSlowness ∧
    (FaultGeometry.mk ["geodetic"] ["uparr"] []
        (FaultOrdering.init [2] [2] 1 1)).get_subfault_starttimes 0
      [1, 1, 1, 1] 5 0 = .error .invalidNucleation := by
  have h := C5_solver_validation (FaultGeometry.mk ["geodetic"] ["uparr"] []
      (FaultOrdering.init [2] [2] 1 1)) 0 [-1, 1, 1, 1] 0 0 2 2 rfl rfl
  have h2 := C5_solver_validation (FaultGeometry.mk ["geodetic"] ["uparr"] []
      (FaultOrdering.init [2] [2] 1 1)) 0 [1, 1, 1, 1] 5 0 2 2 rfl rfl
  constructor
  · exact h.1 ⟨-1, by norm_num, by norm_num⟩
  · refine h2.2.1 ?_ (by omega)
    intro v hv
    simp only [List.mem_cons, List.not_mem_nil, or_false] at hv
    rcases hv with h | h | h | h <;> subst h <;> norm_num

/-- Claim C7: when the datatype set passed to `discretize_sources` contains
`'seismic'`, then `patch_length ≠ patch_width` fails with the non-square
`ValueError` (spec: `InvalidDiscretization`), and — with square patches —
more than one source plane fails with the multi-source `ValueError` (spec:
`UnsupportedMultiSource`).  Both checks are the first two statements of
`discretize_sources`, before any ordering or geometry is constructed, and
an error result carries no `FaultGeometry`. -/
theorem C7_seismic_checks (sources : List RectangularSource)
    (ew el pw pl : ℚ) (datatypes varnames : List String)
    (hs : "seismic" ∈ datatypes) :
    (pl ≠ pw →
      discretize_sources sources ew el pw pl datatypes varnames =
        .error .valueErrorNonSquare) ∧
    (pl = pw → 1 < sources.length →
      discretize_sources sources ew el pw pl datatypes varnames =
        .error .valueErrorMultiSource) := by
  constructor
  · intro hne
    unfold discretize_sources
    rw [if_pos ⟨hs, hne⟩]
  · intro heq hlen
    unfold discretize_sources
    rw [if_neg (fun h => h.2 heq), if_pos ⟨hs, hlen⟩]

/-- Witness for C7: rectangular (5 × 6) patches and a two-plane seismic
setup both fail up front. -/
theorem C7_seismic_checks_witness :
    discretize_sources [⟨0, 10000, 5000, 0, 0⟩] 0 0 5 6 ["seismic"]
      ["uparr"] = .error .valueErrorNonSquare ∧
    discretize_sources [⟨0, 10000, 5000, 0, 0⟩, ⟨0, 10000, 5000, 0, 0⟩] 0 0
      5 5 ["seismic"] ["uparr"] = .error .valueErrorMultiSource := by
  have h1 := C7_seismic_checks [⟨0, 10000, 5000, 0, 0⟩] 0 0 5 6 ["seismic"]
    ["uparr"] (by simp)
  have h2 := C7_seismic_checks
    [⟨0, 10000, 5000, 0, 0⟩, ⟨0, 10000, 5000, 0, 0⟩] 0 0 5 5 ["seismic"]
    ["uparr"] (by simp)
  exact ⟨h1.1 (by norm_num), h2.2 rfl (by norm_num)⟩

/-- Claim C4 states the spec's intent: each plane's registered rake should
be its own rake plus the component's rake offset, independent of the other
planes.  The code violates this: `param_mod` is created once per
`(datatype, component)` and `param_mod['rake'] += s.rake` accumulates over
the already-processed planes.  Evaluating the embedded
`discretize_sources` on two geodetic planes with rakes `10` and `20` and
component `uparr` (rake offset `0`): plane 0 is registered with rake
`10 = 0 + 10` (matching the claim), but plane 1 is registered with rake
`30 = 0 + 10 + 20`, not the claimed `20 = 0 + 20`. -/
theorem C4_rake_accumulation :
    Except.map
      (fun fg => Option.map RectangularSource.rake
        (storeLookup fg._ext_sources (subfault_key "geodetic" "uparr" 0)))
      (discretize_sources
        [⟨10, 10000, 5000, 0, 0⟩, ⟨20, 10000, 5000, 0, 0⟩] 0 0 5 5
        ["geodetic"] ["uparr"]) = .ok (some 10) ∧
    Except.map
      (fun fg => Option.map RectangularSource.rake
        (storeLookup fg._ext_sources (subfault_key "geodetic" "uparr" 1)))
      (discretize_sources
        [⟨10, 10000, 5000, 0, 0⟩, ⟨20, 10000, 5000, 0, 0⟩] 0 0 5 5
        ["geodetic"] ["uparr"]) = .ok (some 30) ∧
    (30 : ℚ) = 0 + 10 + 20 ∧ (30 : ℚ) ≠ 0 + 20 := by
  refine ⟨rfl, rfl, by norm_num, by norm_num⟩

/-! ## Decimal-string machinery: `str` is injective -/

theorem strAux_eq (fuel n : ℕ) (h : n ≤ fuel) (acc : List Char) :
    strAux fuel n acc =
      ((Nat.digits 10 n).reverse.map Nat.digitChar) ++ acc := by
  induction fuel generalizing n acc with
  | zero =>
      have hn : n = 0 := by omega
      subst hn
      simp [strAux]
  | succ fuel ih =>
      cases n with
      | zero => simp [strAux]
      | succ m =>
          have hd : Nat.digits 10 (m + 1) =
              (m + 1) % 10 :: Nat.digits 10 ((m + 1) / 10) :=
            Nat.digits_def' (by norm_num) (Nat.succ_pos m)
          show strAux fuel ((m + 1) / 10)
              (Nat.digitChar ((m + 1) % 10) :: acc) = _
          rw [ih ((m + 1) / 10) (by omega), hd]
          simp [List.append_assoc]

theorem digitChar_inj :
    ∀ a < 10, ∀ b < 10, Nat.digitChar a = Nat.digitChar b → a = b := by
  decide

theorem map_digitChar_inj (l1 : List ℕ) :
    ∀ (l2 : List ℕ), (∀ x ∈ l1, x < 10) → (∀ x ∈ l2, x < 10) →
    l1.map Nat.digitChar = l2.map Nat.digitChar → l1 = l2 := by
  induction l1 with
  | nil =>
      intro l2 _ _ h
      cases l2 with
      | nil => rfl
      | cons b t => simp at h
  | cons a t ih =>
      intro l2 h1 h2 h
      cases l2 with
      | nil => simp at h
      | cons b t2 =>
          simp only [List.map_cons, List.cons.injEq] at h
          have ha := digitChar_inj a (h1 a (by simp)) b (h2 b (by simp)) h.1
          subst ha
          rw [ih t2 (fun x hx => h1 x (by simp [hx]))
            (fun x hx => h2 x (by simp [hx])) h.2]

theorem digits_rev_ne_zero_char (n : ℕ) (hn : n ≠ 0)
    (h : (Nat.digits 10 n).reverse.map Nat.digitChar = ['0']) : False := by
  have hb : ∀ x ∈ (Nat.digits 10 n).reverse, x < 10 := by
    intro x hx
    rw [List.mem_reverse] at hx
    exact Nat.digits_lt_base (by norm_num) hx
  have h0 : ([0] : List ℕ).map Nat.digitChar = ['0'] := rfl
  have heq := map_digitChar_inj (Nat.digits 10 n).reverse [0] hb
    (by intro x hx; simp at hx; omega) (by rw [h, h0])
  have hdig : Nat.digits 10 n = [0] := by
    have := congrArg List.reverse heq
    simpa using this
  have hofd := Nat.ofDigits_digits 10 n
  rw [hdig] at hofd
  simp [Nat.ofDigits] at hofd
  exact hn hofd.symm

theorem str_inj (m n : ℕ) (h : str m = str n) : m = n := by
  unfold str at h
  by_cases hm : m = 0 <;> by_cases hn : n = 0
  · omega
  · rw [if_pos hm, if_neg hn] at h
    have hd := congrArg String.data h
    rw [strAux_eq n n le_rfl] at hd
    simp only [List.append_nil] at hd
    exact absurd (show (Nat.digits 10 n).reverse.map Nat.digitChar = ['0']
      from hd.symm) (fun hc => digits_rev_ne_zero_char n hn hc)
  · rw [if_neg hm, if_pos hn] at h
    have hd := congrArg String.data h
    rw [strAux_eq m m le_rfl] at hd
    simp only [List.append_nil] at hd
    exact absurd (show (Nat.digits 10 m).reverse.map Nat.digitChar = ['0']
      from hd) (fun hc => digits_rev_ne_zero_char m hm hc)
  · rw [if_neg hm, if_neg hn] at h
    have hd := congrArg String.data h
    rw [strAux_eq m m le_rfl, strAux_eq n n le_rfl] at hd
    simp only [List.append_nil] at hd
    have hbm : ∀ x ∈ (Nat.digits 10 m).reverse, x < 10 := by
      intro x hx
      rw [List.mem_reverse] at hx
      exact Nat.digits_lt_base (by norm_num) hx
    have hbn : ∀ x ∈ (Nat.digits 10 n).reverse, x < 10 := by
      intro x hx
      rw [List.mem_reverse] at hx
      exact Nat.digits_lt_base (by norm_num) hx
    have heq := map_digitChar_inj _ _ hbm hbn hd
    have hdig : Nat.digits 10 m = Nat.digits 10 n := by
      have := congrArg List.reverse heq
      simpa using this
    have h1 := Nat.ofDigits_digits 10 m
    have h2 := Nat.ofDigits_digits 10 n
    rw [← h1, ← h2, hdig]

theorem string_data_append (s t : String) :
    (s ++ t).data = s.data ++ t.data := by
  cases s
  cases t
  rfl

theorem subfault_key_inj (dt comp : String) (i j : ℕ)
    (h : subfault_key dt comp i = subfault_key dt comp j) : i = j := by
  unfold subfault_key at h
  have hd := congrArg String.data h
  simp only [string_data_append, List.append_assoc] at hd
  have h1 := List.append_cancel_left hd
  have h2 := List.append_cancel_left h1
  have h3 := List.append_cancel_left h2
  have h4 := List.append_cancel_left h3
  exact str_inj i j (congrArg String.mk h4)

/-! ## Store and setup-loop lemmas -/

theorem storeLookup_storeSet (store : List (String × RectangularSource))
    (k k' : String) (v : RectangularSource) :
    storeLookup (storeSet store k v) k' =
      if k' = k then some v else storeLookup store k' := by
  induction store with
  | nil =>
      by_cases hk' : k' = k <;> simp [storeSet, storeLookup, hk']
  | cons p rest ih =>
      obtain ⟨pk, pv⟩ := p
      by_cases hk : k = pk
      · subst hk
        by_cases hk' : k' = k <;> simp [storeSet, storeLookup, hk']
      · by_cases hk' : k' = pk
        · subst hk'
          have hkk : ¬ (k' = k) := fun hc => hk hc.symm
          simp [storeSet, storeLookup, hk, hkk]
        · simp [storeSet, storeLookup, hk, hk', ih]

theorem setupLoop_replace_no_error (dt comp : String)
    (srcs : List RectangularSource) (i : ℕ)
    (store : List (String × RectangularSource)) :
    (setupLoop dt comp true srcs i store).2 = none := by
  induction srcs generalizing i store with
  | nil => rfl
  | cons s rest ih =>
      show (setupLoop dt comp true (s :: rest) i store).2 = none
      unfold setupLoop
      rw [if_neg (by simp)]
      exact ih _ _

theorem setupLoop_lookup_other (dt comp : String) (replace : Bool)
    (srcs : List RectangularSource) (i : ℕ)
    (store : List (String × RectangularSource)) (k : String)
    (hk : ∀ j, j < srcs.length → k ≠ subfault_key dt comp (i + j)) :
    storeLookup (setupLoop dt comp replace srcs i store).1 k =
      storeLookup store k := by
  induction srcs generalizing i store with
  | nil => rfl
  | cons s rest ih =>
      unfold setupLoop
      by_cases hc :
          (storeLookup store (subfault_key dt comp i)).isSome ∧
            replace = false
      · rw [if_pos hc]
      · rw [if_neg hc]
        rw [ih (i + 1) _ (fun j hj => by
          have := hk (j + 1) (by simp only [List.length_cons]; omega)
          simpa [show i + (j + 1) = i + 1 + j by omega] using this)]
        rw [storeLookup_storeSet]
        rw [if_neg (by simpa using hk 0 (by simp))]

theorem setupLoop_lookup_written (dt comp : String) (replace : Bool)
    (srcs : List RectangularSource) (i : ℕ)
    (store : List (String × RectangularSource))
    (hok : (setupLoop dt comp replace srcs i store).2 = none) :
    ∀ j (hj : j < srcs.length),
      storeLookup (setupLoop dt comp replace srcs i store).1
        (subfault_key dt comp (i + j)) = some (srcs.get ⟨j, hj⟩) := by
  induction srcs generalizing i store with
  | nil => intro j hj; simp at hj
  | cons s rest ih =>
      intro j hj
      unfold setupLoop at hok ⊢
      by_cases hc :
          (storeLookup store (subfault_key dt comp i)).isSome ∧
            replace = false
      · rw [if_pos hc] at hok
        simp at hok
      · rw [if_neg hc] at hok ⊢
        cases j with
        | zero =>
            rw [setupLoop_lookup_other dt comp replace rest (i + 1) _ _
              (fun j' hj' hkey => by
                have := subfault_key_inj dt comp (i + 0) (i + 1 + j') hkey
                omega)]
            rw [storeLookup_storeSet,
              if_pos (by rw [Nat.add_zero])]
            rfl
        | succ j' =>
            have := ih (i + 1) (storeSet store (subfault_key dt comp i) s)
              hok j' (by simp only [List.length_cons] at hj; omega)
            rw [show i + (j' + 1) = i + 1 + j' by omega]
            exact this

theorem setup_subfaults_ok (fg : FaultGeometry) (dt comp : String)
    (srcs : List RectangularSource) (replace : Bool) (fg' : FaultGeometry)
    (hok : fg.setup_subfaults dt comp srcs replace = (fg', none)) :
    dt ∈ fg.datatypes ∧ comp ∈ fg.components ∧
    srcs.length = fg.nsubfaults ∧
    fg' = { fg with _ext_sources :=
      (setupLoop dt comp replace srcs 0 fg._ext_sources).1 } ∧
    (setupLoop dt comp replace srcs 0 fg._ext_sources).2 = none := by
  unfold FaultGeometry.setup_subfaults at hok
  by_cases h1 : dt ∈ fg.datatypes
  · rw [if_neg (by simpa using h1)] at hok
    by_cases h2 : comp ∈ fg.components
    · rw [if_neg (by simpa using h2)] at hok
      by_cases h3 : srcs.length = fg.nsubfaults
      · rw [if_neg (by simpa using h3)] at hok
        have hpair := Prod.mk.injEq .. ▸ hok
        refine ⟨h1, h2, h3, ?_, ?_⟩
        · exact (congrArg Prod.fst hok).symm
        · exact congrArg Prod.snd hok
      · rw [if_pos h3] at hok
        exact absurd (congrArg Prod.snd hok) (by simp)
    · rw [if_pos (by simpa using h2)] at hok
      exact absurd (congrArg Prod.snd hok) (by simp)
  · rw [if_pos (by simpa using h1)] at hok
    exact absurd (congrArg Prod.snd hok) (by simp)

/-- Claim C6: after a successful `setup_subfaults` for `(datatype,
component)` on a fault with at least one subfault (the claim's "previously
stored entries" presuppose one), (a) a second call for the same pair with
`replace` unset fails with the duplicate `FaultGeometryError` and returns
the geometry unchanged; (b) with `replace = True` it succeeds and
overwrites all `nsubfaults` entries of the pair; and (c) any call whose
source list length differs from `nsubfaults` fails before storing
anything. -/
theorem C6_setup_duplicate_replace (fg fg1 : FaultGeometry)
    (dt comp : String) (srcs srcs2 : List RectangularSource)
    (hn : 0 < fg.nsubfaults)
    (h1 : fg.setup_subfaults dt comp srcs false = (fg1, none))
    (hlen2 : srcs2.length = fg1.nsubfaults) :
    (fg1.setup_subfaults dt comp srcs2 false =
      (fg1, some .faultGeometryDuplicate)) ∧
    ((fg1.setup_subfaults dt comp srcs2 true).2 = none ∧
      ∀ j (hj : j < srcs2.length),
        storeLookup ((fg1.setup_subfaults dt comp srcs2 true).1)._ext_sources
          (subfault_key dt comp j) = some (srcs2.get ⟨j, hj⟩)) ∧
    (∀ (g : FaultGeometry) (r : Bool) (ss : List RectangularSource),
      ss.length ≠ g.nsubfaults →
      (g.setup_subfaults dt comp ss r).1 = g ∧
      (g.setup_subfaults dt comp ss r).2 ≠ none) := by
  obtain ⟨hdt, hcomp, hlen, hfg1, hLnone⟩ :=
    setup_subfaults_ok fg dt comp srcs false fg1 h1
  have hdt1 : dt ∈ fg1.datatypes := by rw [hfg1]; exact hdt
  have hcomp1 : comp ∈ fg1.components := by rw [hfg1]; exact hcomp
  have hns1 : fg1.nsubfaults = fg.nsubfaults := by
    rw [hfg1]; rfl
  have hpresent : (storeLookup fg1._ext_sources
      (subfault_key dt comp 0)).isSome := by
    have h0 := setupLoop_lookup_written dt comp false srcs 0
      fg._ext_sources hLnone 0 (by omega)
    rw [hfg1]
    simp only [Nat.add_zero] at h0
    simp [h0]
  refine ⟨?_, ⟨?_, ?_⟩, ?_⟩
  · unfold FaultGeometry.setup_subfaults
    rw [if_neg (by simpa using hdt1), if_neg (by simpa using hcomp1),
      if_neg (by simp [hlen2])]
    cases srcs2 with
    | nil =>
        exfalso
        simp only [List.length_nil] at hlen2
        omega
    | cons s rest =>
        unfold setupLoop
        rw [if_pos ⟨hpresent, rfl⟩]
  · unfold FaultGeometry.setup_subfaults
    rw [if_neg (by simpa using hdt1), if_neg (by simpa using hcomp1),
      if_neg (by simp [hlen2])]
    exact setupLoop_replace_no_error dt comp srcs2 0 fg1._ext_sources
  · intro j hj
    unfold FaultGeometry.setup_subfaults
    rw [if_neg (by simpa using hdt1), if_neg (by simpa using hcomp1),
      if_neg (by simp [hlen2])]
    have := setupLoop_lookup_written dt comp true srcs2 0 fg1._ext_sources
      (setupLoop_replace_no_error dt comp srcs2 0 fg1._ext_sources) j hj
    simpa using this
  · intro g r ss hlg
    unfold FaultGeometry.setup_subfaults
    by_cases hg1 : dt ∈ g.datatypes
    · rw [if_neg (by simpa using hg1)]
      by_cases hg2 : comp ∈ g.components
      · rw [if_neg (by simpa using hg2), if_pos hlg]
        exact ⟨rfl, by simp⟩
      · rw [if_pos (by simpa using hg2)]
        exact ⟨rfl, by simp⟩
    · rw [if_pos (by simpa using hg1)]
      exact ⟨rfl, by simp⟩

/-- Witness for C6 on a one-subfault geometry: the duplicate second call
fails and leaves the state unchanged; the `replace = true` call overwrites
the stored entry. -/
theorem C6_setup_duplicate_replace_witness :
    (((FaultGeometry.mk ["geodetic"] ["uparr"] []
        (FaultOrdering.init [2] [1] 1 1)).setup_subfaults "geodetic" "uparr"
        [⟨0, 1, 1, 0, 0⟩] false).1.setup_subfaults "geodetic" "uparr"
        [⟨5, 1, 1, 0, 0⟩] false =
      (((FaultGeometry.mk ["geodetic"] ["uparr"] []
          (FaultOrdering.init [2] [1] 1 1)).setup_subfaults "geodetic"
          "uparr" [⟨0, 1, 1, 0, 0⟩] false).1,
        some .faultGeometryDuplicate)) ∧
    storeLookup (((((FaultGeometry.mk ["geodetic"] ["uparr"] []
          (FaultOrdering.init [2] [1] 1 1)).setup_subfaults "geodetic"
          "uparr" [⟨0, 1, 1, 0, 0⟩] false).1).setup_subfaults "geodetic"
          "uparr" [⟨5, 1, 1, 0, 0⟩] true).1)._ext_sources
      (subfault_key "geodetic" "uparr" 0) = some ⟨5, 1, 1, 0, 0⟩ := by
  have h := C6_setup_duplicate_replace
    (FaultGeometry.mk ["geodetic"] ["uparr"] []
      (FaultOrdering.init [2] [1] 1 1))
    ((FaultGeometry.mk ["geodetic"] ["uparr"] []
      (FaultOrdering.init [2] [1] 1 1)).setup_subfaults "geodetic" "uparr"
      [⟨0, 1, 1, 0, 0⟩] false).1
    "geodetic" "uparr" [⟨0, 1, 1, 0, 0⟩] [⟨5, 1, 1, 0, 0⟩]
    (by decide) rfl rfl
  refine ⟨h.1, ?_⟩
  have := h.2.1.2 0 (by decide)
  simpa using this
